import Mathlib

/-!
Verification development for the petition-analysis application.

The program under study reads a free-text petition and an investigating
officer response, classifies the claim type, predicts a severity score and a
closure status with three pre-trained models, stores the resulting case
record in an in-session history, and renders a rule-based action plan for
cases that are not closed.

This file gives a shallow embedding of the relevant code:

* `preprocess_text` embeds the text normalizer of `utils.py`, including the
  exact semantics of its two regular-expression substitutions.  Both raw
  patterns double the backslash, so `[^a-zA-Z0-9\\s]` keeps a literal
  backslash (besides ASCII letters and digits) and `\\s+` matches a literal
  backslash followed by a run of the letter `s`, not a whitespace run.
* `predict_claim_type`, `predict_score`, `predict_status` embed the three
  vectorize-then-predict wrappers of `utils.py`; the pre-trained artifacts
  are opaque, so they appear as an explicit `Models` record of functions.
* `get_guidance` embeds the static guidance lookup of `utils.py`.
* `analyzeCase` / `analyzeStep` embed the Analyze Case button handler of
  `app.py`, including input validation, session-history append and the
  conditional guidance rendering.
-/

set_option maxRecDepth 40000

namespace PetitionApp

/-! ### ASCII character classes used by the Python code -/

/-- ASCII uppercase letter `A`..`Z`. -/
def isUpperAscii (c : Char) : Bool := decide (65 ≤ c.toNat ∧ c.toNat ≤ 90)

/-- ASCII lowercase letter `a`..`z`. -/
def isLowerAscii (c : Char) : Bool := decide (97 ≤ c.toNat ∧ c.toNat ≤ 122)

/-- ASCII digit `0`..`9`. -/
def isDigitAscii (c : Char) : Bool := decide (48 ≤ c.toNat ∧ c.toNat ≤ 57)

/-- The whitespace characters stripped by Python `str.strip()` (ASCII part).
Only the plain space can actually reach the `strip` call in
`preprocess_text`, because the first substitution removes all whitespace. -/
def isPySpace (c : Char) : Bool :=
  c == ' ' || c == '\t' || c == '\n' || c == '\r' || c == '\x0b' || c == '\x0c'

/-- Python `str.lower()`, character by character.  `Char.toLower` lowers the
ASCII range, which is all that survives the alphanumeric filter below. -/
def pyLower (s : String) : String := ⟨s.data.map Char.toLower⟩

/-! ### `preprocess_text` (src/utils.py, lines 19-29)

The first substitution `re.sub(r'[^a-zA-Z0-9\\s]', '', text)` deletes every
character outside the class `[a-zA-Z0-9\\s]`.  Because the backslash is
doubled inside a raw string, that class contains the ASCII letters, the
digits, a literal backslash and the (redundant) letter `s` - it is not the
whitespace class, so spaces are deleted as well. -/

/-- Membership in the character class `[a-zA-Z0-9\\s]` of the first
substitution pattern. -/
def regexKeep (c : Char) : Bool :=
  isLowerAscii c || isUpperAscii c || isDigitAscii c || c == '\\' || c == 's'

/-- State of the left-to-right scanner for the second substitution
`re.sub(r'\\s+', ' ', text)`, whose pattern is a literal backslash followed
by one or more letters `s`. -/
inductive SubState where
  /-- Outside any candidate match. -/
  | normal
  /-- A backslash has been read but not yet emitted. -/
  | pendingBackslash
  /-- Inside the `s`-run of a match whose single space is already emitted. -/
  | inSRun
deriving DecidableEq

/-- One-pass scanner implementing `re.sub(r'\\s+', ' ', ·)`: each maximal
occurrence of a backslash followed by one or more letters `s` is replaced by
one space, leftmost first, with the greedy `s+` semantics of `re.sub`. -/
def subBackslashSRun : SubState → List Char → List Char
  | .normal, [] => []
  | .pendingBackslash, [] => ['\\']
  | .inSRun, [] => []
  | .normal, c :: rest =>
      if c = '\\' then subBackslashSRun .pendingBackslash rest
      else c :: subBackslashSRun .normal rest
  | .pendingBackslash, c :: rest =>
      if c = 's' then ' ' :: subBackslashSRun .inSRun rest
      else if c = '\\' then '\\' :: subBackslashSRun .pendingBackslash rest
      else '\\' :: c :: subBackslashSRun .normal rest
  | .inSRun, c :: rest =>
      if c = 's' then subBackslashSRun .inSRun rest
      else if c = '\\' then subBackslashSRun .pendingBackslash rest
      else c :: subBackslashSRun .normal rest

/-- Python `.strip()`: drop leading and trailing whitespace. -/
def pyStrip (l : List Char) : List Char :=
  ((l.dropWhile isPySpace).reverse.dropWhile isPySpace).reverse

/-- Embedding of `preprocess_text` from `src/utils.py`: lowercase, delete
every character outside `[a-zA-Z0-9\\s]`, substitute `\\s+` by one space,
strip. -/
def preprocess_text (text : String) : String :=
  ⟨pyStrip (subBackslashSRun .normal (((pyLower text).data).filter regexKeep))⟩

/-! ### Substring containment (Python `in` on strings) -/

/-- Does the list start with `pat`? -/
def leadsWith : List Char → List Char → Bool
  | [], _ => true
  | _ :: _, [] => false
  | a :: as, b :: bs => a == b && leadsWith as bs

/-- Does some suffix of the list start with `needle`? -/
def containsSub (needle : List Char) : List Char → Bool
  | [] => needle.isEmpty
  | b :: bs => leadsWith needle (b :: bs) || containsSub needle bs

/-- Python substring test `needle in hay`. -/
def strContains (hay needle : String) : Bool := containsSub needle.data hay.data

/-! ### `get_guidance` (src/utils.py, lines 45-89) -/

/-- The five steps returned for claims containing `missing`. -/
def missingGuidance : String :=
  "- Expand Call Detail Records (CDR) to include past week.\n- Verify financial transactions or ATM usage.\n- Retrieve last seen location from telecom service provider.\n- Involve cyber cell for social media tracking.\n- Coordinate with nearby districts and share details."

/-- The five steps returned for claims containing `fraud` or `cyber`. -/
def fraudGuidance : String :=
  "- Request bank transaction logs and freeze suspected accounts.\n- Trace caller\x27s location using CDR and IMEI.\n- Contact cyber crime unit for digital trail analysis.\n- Verify IP logs from telecom operator.\n- Check for previous complaints on the same number/account."

/-- The five steps returned for claims containing `land`. -/
def landGuidance : String :=
  "- Cross-check land registry and ownership records.\n- Contact Patwari and revenue department for demarcation.\n- Prevent escalation by enforcing temporary injunction.\n- Ensure both parties are legally notified.\n- Recommend civil court proceedings if documents are disputed."

/-- The five steps returned for claims containing `domestic`. -/
def domesticGuidance : String :=
  "- Record victim and witness statements sensitively.\n- Conduct a medical examination with proper documentation.\n- Ensure victim safety through immediate protection measures.\n- Involve womenâ€™s help cell if required.\n- Register FIR under relevant IPC and Domestic Violence Act."

/-- The five generic fallback steps. -/
def defaultGuidance : String :=
  "- Review complaint content thoroughly.\n- Ensure FIR has been registered if needed.\n- Contact relevant units for support (e.g., cyber cell, legal).\n- Update complainant about current status regularly.\n- Submit progress report to supervising officer."

/-- Embedding of `get_guidance` from `src/utils.py`.  The `complaint` and
`response` parameters appear in the source signature but are never read. -/
def get_guidance (complaint claim response : String) : String :=
  let c := pyLower claim
  if strContains c "missing" then missingGuidance
  else if strContains c "fraud" || strContains c "cyber" then fraudGuidance
  else if strContains c "land" then landGuidance
  else if strContains c "domestic" then domesticGuidance
  else defaultGuidance

/-- Split a guidance text into its lines, mirroring Python
`guidance_text.split("\n")`. -/
def splitNl : List Char → List (List Char)
  | [] => [[]]
  | c :: rest =>
      if c = '\n' then [] :: splitNl rest
      else
        match splitNl rest with
        | [] => [[c]]
        | h :: t => (c :: h) :: t

/-- The ordered action steps carried by a guidance text. -/
def guidanceSteps (g : String) : List String :=
  (splitNl g.data).map fun l => ⟨l⟩

/-! ### The pre-trained artifacts and the three predict wrappers
(src/utils.py, lines 10-17 and 31-43)

The six artifacts are opaque binaries loaded from disk; the code only uses
`transform` on one-element text lists and `predict` on the resulting
feature matrix.  They are embedded as an explicit record of functions over
feature vectors with rational entries. -/

/-- The six pre-trained artifacts loaded at startup in `src/utils.py`. -/
structure Models where
  claimVectorizer : String → List ℚ
  claimModel : List ℚ → String
  scoreVectorizer : String → List ℚ
  scoreModel : List ℚ → ℚ
  statusVectorizer : String → List ℚ
  statusModel : List ℚ → String

/-- Embedding of `predict_claim_type`: vectorize the given text, predict. -/
def predict_claim_type (M : Models) (text : String) : String :=
  M.claimModel (M.claimVectorizer text)

/-- Embedding of `predict_score`: vectorize the response, predict. -/
def predict_score (M : Models) (response : String) : ℚ :=
  M.scoreModel (M.scoreVectorizer response)

/-- The text blob `f"{complaint} {claim} {response}"` built by
`predict_status`. -/
def statusCombined (complaint claim response : String) : String :=
  complaint ++ " " ++ claim ++ " " ++ response

/-- The feature row `np.hstack((vec, [[score]]))` built by `predict_status`:
the vectorized blob with the score appended as one extra column. -/
def statusFinalInput (M : Models) (complaint claim response : String)
    (score : ℚ) : List ℚ :=
  M.statusVectorizer (statusCombined complaint claim response) ++ [score]

/-- Embedding of `predict_status` from `src/utils.py`. -/
def predict_status (M : Models) (complaint claim response : String)
    (score : ℚ) : String :=
  M.statusModel (statusFinalInput M complaint claim response score)

/-! ### The Analyze Case handler (src/app.py, lines 117-145) -/

/-- One analyzed case, as appended to `st.session_state.cases`. -/
structure CaseRecord where
  Petition : String
  Claim : String
  Response : String
  Score : ℚ
  Status : String
deriving DecidableEq

/-- Outcome of one press of the Analyze Case button. -/
inductive AnalyzeResult where
  /-- `st.error(...)`: at least one input was empty. -/
  | validationError (message : String)
  /-- The record built by the pipeline, together with the guidance text
  rendered for it (`none` when the case is closed). -/
  | analyzed (record : CaseRecord) (guidance : Option String)
deriving DecidableEq

/-- The record built for non-empty inputs: claim from the raw petition,
score from the raw response, status from petition, claim, response and
score. -/
def caseRecordOf (M : Models) (petition response : String) : CaseRecord :=
  let claim := predict_claim_type M petition
  let score := predict_score M response
  let status := predict_status M petition claim response score
  ⟨petition, claim, response, score, status⟩

/-- Embedding of the Analyze Case button handler of `src/app.py`: validate
that both inputs are non-empty, run the three predictors, and render
guidance unless `status.lower() == 'closed'`. -/
def analyzeCase (M : Models) (petition response : String) : AnalyzeResult :=
  if petition = "" ∨ response = "" then
    .validationError "Please enter both petition and response."
  else
    let record := caseRecordOf M petition response
    let guidance :=
      if pyLower record.Status = "closed" then none
      else some (get_guidance petition record.Claim response)
    .analyzed record guidance

/-- The handler's effect on the session history: a successful analysis
appends its record, a validation error leaves the history unchanged. -/
def analyzeStep (M : Models) (history : List CaseRecord)
    (petition response : String) : List CaseRecord × AnalyzeResult :=
  match analyzeCase M petition response with
  | .validationError m => (history, .validationError m)
  | .analyzed record g => (history ++ [record], .analyzed record g)

/-- Run a session: press the button once per input pair, starting from the
given history. -/
def runSessionFrom (M : Models) :
    List CaseRecord → List (String × String) → List CaseRecord
  | history, [] => history
  | history, (p, r) :: rest => runSessionFrom M (analyzeStep M history p r).1 rest

/-- Run a session from an empty history. -/
def runSession (M : Models) (inputs : List (String × String)) : List CaseRecord :=
  runSessionFrom M [] inputs

/-! ### Concrete artifact instances used in witnesses -/

/-- A concrete artifact instance whose status model always answers
`running`. -/
def runningModels : Models where
  claimVectorizer := fun _ => [1]
  claimModel := fun _ => "missing person"
  scoreVectorizer := fun _ => [2]
  scoreModel := fun _ => 3
  statusVectorizer := fun _ => []
  statusModel := fun _ => "running"

/-- A concrete artifact instance whose status model always answers
`Closed` (mixed case, as the dataset labels are capitalized). -/
def closedModels : Models where
  claimVectorizer := fun _ => [1]
  claimModel := fun _ => "land dispute"
  scoreVectorizer := fun _ => [2]
  scoreModel := fun _ => 7
  statusVectorizer := fun _ => []
  statusModel := fun _ => "Closed"

/-- A concrete artifact instance whose claim model distinguishes texts by
length, separating the raw petition from its normalized form. -/
def lengthModels : Models where
  claimVectorizer := fun s => [(s.length : ℚ)]
  claimModel := fun v => if v = [4] then "raw input" else "normalized input"
  scoreVectorizer := fun s => [(s.length : ℚ)]
  scoreModel := fun v => v.headD 0
  statusVectorizer := fun _ => []
  statusModel := fun _ => "Closed"

/-! ### Supporting lemmas about characters -/

/-- `Char.ofNat` at a valid scalar value keeps the value. -/
theorem char_toNat_ofNat (n : Nat) (h : n.isValidChar) : (Char.ofNat n).toNat = n := by
  rw [Char.ofNat, dif_pos h]; rfl

/-- Lowercasing never produces an ASCII uppercase letter. -/
theorem toLower_not_upper (c : Char) : isUpperAscii (Char.toLower c) = false := by
  have hdef : Char.toLower c =
      if c.toNat ≥ 65 ∧ c.toNat ≤ 90 then Char.ofNat (c.toNat + 32) else c := rfl
  rw [hdef]
  split
  · next hc =>
    have hv : (c.toNat + 32).isValidChar := Or.inl (by omega)
    simp only [isUpperAscii, char_toNat_ofNat _ hv, decide_eq_false_iff_not]
    omega
  · next hc =>
    simp only [isUpperAscii, decide_eq_false_iff_not]
    omega

/-! ### The amended normalizer, written from the corrected specification
words: lowercase; remove every character that is not an ASCII letter, digit
or backslash; replace every occurrence of a backslash followed by one or
more letters `s` with a single space; trim leading and trailing
whitespace. -/

/-- Characters kept by the amended removal step: ASCII letters, digits and
the backslash. -/
def amendedKeep (c : Char) : Bool :=
  isLowerAscii c || isUpperAscii c || isDigitAscii c || c == '\\'

/-- The amended replacement step, written with explicit lookahead: at a
backslash immediately followed by at least one letter `s`, emit one space
and continue after the maximal run of `s`; otherwise copy the character. -/
def lookaheadReplace : List Char → List Char
  | [] => []
  | c :: l =>
      if c = '\\' ∧ l.head? = some 's' then
        ' ' :: lookaheadReplace (l.dropWhile fun d => d = 's')
      else c :: lookaheadReplace l
termination_by l => l.length
decreasing_by
  · simp only [List.length_cons]
    exact Nat.lt_succ_of_le ((List.dropWhile_suffix _).length_le)
  · simp only [List.length_cons]
    exact Nat.lt_succ_self _

/-- The normalizer as the amended specification describes it. -/
def normalizeAmended (s : String) : String :=
  ⟨pyStrip (lookaheadReplace (((pyLower s).data).filter amendedKeep))⟩

/-- The class kept by the first substitution agrees with the amended keep
class: the stray literal `s` of the pattern is already a lowercase letter. -/
theorem regexKeep_eq_amendedKeep (c : Char) : regexKeep c = amendedKeep c := by
  by_cases hs : c = 's'
  · subst hs; decide
  · have : (c == 's') = false := by simp [hs]
    simp [regexKeep, amendedKeep, this]

/-- The one-pass scanner of the embedding computes the lookahead
replacement, in each of its three states. -/
theorem subRun_eq_lookahead (l : List Char) :
    subBackslashSRun .normal l = lookaheadReplace l ∧
    subBackslashSRun .pendingBackslash l = lookaheadReplace ('\\' :: l) ∧
    subBackslashSRun .inSRun l = lookaheadReplace (l.dropWhile fun d => d = 's') := by
  have hbs : ('\\' : Char) ≠ 's' := by decide
  have hsb : ('s' : Char) ≠ '\\' := by decide
  induction l with
  | nil =>
    refine ⟨?_, ?_, ?_⟩ <;> simp [subBackslashSRun, lookaheadReplace]
  | cons c rest ih =>
    obtain ⟨ihN, ihP, ihS⟩ := ih
    by_cases hs : c = 's'
    · subst hs
      refine ⟨?_, ?_, ?_⟩
      · simp [subBackslashSRun, lookaheadReplace, ihN, hsb]
      · simp [subBackslashSRun, lookaheadReplace, ihS, List.dropWhile_cons]
      · simp [subBackslashSRun, ihS, List.dropWhile_cons]
    · by_cases hb : c = '\\'
      · subst hb
        refine ⟨?_, ?_, ?_⟩
        · simp [subBackslashSRun, ihP]
        · simp [subBackslashSRun, lookaheadReplace, ihP, hbs]
        · simp [subBackslashSRun, ihP, List.dropWhile_cons, hbs]
      · refine ⟨?_, ?_, ?_⟩
        · simp [subBackslashSRun, lookaheadReplace, ihN, hs, hb]
        · simp [subBackslashSRun, lookaheadReplace, ihN, hs, hb]
        · simp [subBackslashSRun, lookaheadReplace, ihN, hs, hb, List.dropWhile_cons]

/-- Every character emitted by the scanner is an input character, a space,
or a backslash. -/
theorem mem_subRun (l : List Char) :
    ∀ st c, c ∈ subBackslashSRun st l → c ∈ l ∨ c = ' ' ∨ c = '\\' := by
  induction l with
  | nil =>
    intro st c h
    cases st <;> simp [subBackslashSRun] at h
    simp [h]
  | cons a rest ih =>
    intro st c h
    have step : ∀ d, d ∈ rest ∨ d = ' ' ∨ d = '\\' → d ∈ a :: rest ∨ d = ' ' ∨ d = '\\' := by
      intro d hd
      rcases hd with hd | hd
      · exact Or.inl (List.mem_cons_of_mem a hd)
      · exact Or.inr hd
    cases st with
    | normal =>
      rw [subBackslashSRun] at h
      split at h
      · exact step c (ih _ c h)
      · rcases List.mem_cons.mp h with rfl | h
        · exact Or.inl (by simp)
        · exact step c (ih _ c h)
    | pendingBackslash =>
      rw [subBackslashSRun] at h
      split at h
      · rcases List.mem_cons.mp h with rfl | h
        · exact Or.inr (Or.inl rfl)
        · exact step c (ih _ c h)
      · split at h
        · rcases List.mem_cons.mp h with rfl | h
          · exact Or.inr (Or.inr rfl)
          · exact step c (ih _ c h)
        · rcases List.mem_cons.mp h with rfl | h
          · exact Or.inr (Or.inr rfl)
          · rcases List.mem_cons.mp h with rfl | h
            · exact Or.inl (by simp)
            · exact step c (ih _ c h)
    | inSRun =>
      rw [subBackslashSRun] at h
      split at h
      · exact step c (ih _ c h)
      · split at h
        · exact step c (ih _ c h)
        · rcases List.mem_cons.mp h with rfl | h
          · exact Or.inl (by simp)
          · exact step c (ih _ c h)

/-- Stripping only deletes characters. -/
theorem mem_pyStrip (l : List Char) (c : Char) (h : c ∈ pyStrip l) : c ∈ l := by
  unfold pyStrip at h
  rw [List.mem_reverse] at h
  have h1 := (List.dropWhile_suffix isPySpace).subset h
  rw [List.mem_reverse] at h1
  exact (List.dropWhile_suffix isPySpace).subset h1

/-- The head of a `dropWhile` result never satisfies the dropped
predicate. -/
theorem dropWhile_head_false (p : Char → Bool) (l : List Char) (c : Char)
    (h : (l.dropWhile p).head? = some c) : p c = false := by
  induction l with
  | nil => simp [List.dropWhile] at h
  | cons a rest ih =>
    rw [List.dropWhile_cons] at h
    split at h
    · exact ih h
    · next hpa =>
      simp only [List.head?_cons, Option.some.injEq] at h
      subst h
      exact Bool.of_not_eq_true hpa

/-- A nonempty `dropWhile` result keeps the last element of its input. -/
theorem dropWhile_getLast (p : Char → Bool) (l : List Char) (c : Char)
    (h : (l.dropWhile p).getLast? = some c) : l.getLast? = some c := by
  obtain ⟨t, ht⟩ := List.dropWhile_suffix (l := l) p
  have hne : l.dropWhile p ≠ [] := by
    intro hnil
    rw [hnil] at h
    simp at h
  rw [← ht, List.getLast?_append_of_ne_nil t hne]
  exact h

/-- Every character of a normalized text is a lowercase ASCII letter, a
digit, a backslash, or a space. -/
theorem preprocess_chars (s : String) (c : Char)
    (hc : c ∈ (preprocess_text s).data) :
    (isLowerAscii c || isDigitAscii c || c == '\\' || c == ' ') = true := by
  have h1 : c ∈ subBackslashSRun .normal (((pyLower s).data).filter regexKeep) :=
    mem_pyStrip _ c hc
  rcases mem_subRun _ .normal c h1 with h2 | h2 | h2
  · rw [List.mem_filter] at h2
    obtain ⟨hmem, hkeep⟩ := h2
    have hdata : (pyLower s).data = s.data.map Char.toLower := rfl
    rw [hdata, List.mem_map] at hmem
    obtain ⟨d, -, rfl⟩ := hmem
    have hup := toLower_not_upper d
    simp only [regexKeep, Bool.or_eq_true] at hkeep
    rcases hkeep with ((((h | h) | h) | h) | h)
    · simp [h]
    · rw [hup] at h
      exact absurd h Bool.false_ne_true
    · simp [h]
    · simp [h]
    · rw [beq_iff_eq] at h
      rw [h]
      decide
  · subst h2; decide
  · subst h2; decide

/-- The first character surviving `pyStrip` is not whitespace. -/
theorem pyStrip_head (l : List Char) (c : Char)
    (h : (pyStrip l).head? = some c) : isPySpace c = false := by
  unfold pyStrip at h
  rw [List.head?_reverse] at h
  have h2 := dropWhile_getLast isPySpace _ c h
  rw [List.getLast?_reverse] at h2
  exact dropWhile_head_false isPySpace _ c h2

/-- The last character surviving `pyStrip` is not whitespace. -/
theorem pyStrip_getLast (l : List Char) (c : Char)
    (h : (pyStrip l).getLast? = some c) : isPySpace c = false := by
  unfold pyStrip at h
  rw [List.getLast?_reverse] at h
  exact dropWhile_head_false isPySpace _ c h

/-! ### Supporting lemmas about the Analyze Case handler -/

/-- An empty petition or response short-circuits to the validation error. -/
theorem analyzeCase_empty (M : Models) (p r : String) (h : p = "" ∨ r = "") :
    analyzeCase M p r =
      .validationError "Please enter both petition and response." := by
  unfold analyzeCase
  rw [if_pos h]

/-- Unfolding of a successful analysis. -/
theorem analyzeCase_of_ne (M : Models) (p r : String) (hp : p ≠ "") (hr : r ≠ "") :
    analyzeCase M p r =
      .analyzed (caseRecordOf M p r)
        (if pyLower (caseRecordOf M p r).Status = "closed" then none
         else some (get_guidance p (caseRecordOf M p r).Claim r)) := by
  unfold analyzeCase
  rw [if_neg]
  rintro (h | h)
  · exact hp h
  · exact hr h

/-- Inversion: a successful analysis determines both inputs non-empty, the
record, and the guidance decision. -/
theorem analyzeCase_record (M : Models) (p r : String) (rec : CaseRecord)
    (g : Option String) (h : analyzeCase M p r = .analyzed rec g) :
    p ≠ "" ∧ r ≠ "" ∧ rec = caseRecordOf M p r ∧
    g = (if pyLower rec.Status = "closed" then none
         else some (get_guidance p rec.Claim r)) := by
  by_cases hp : p = ""
  · rw [analyzeCase_empty M p r (Or.inl hp)] at h
    exact absurd h (by simp)
  · by_cases hr : r = ""
    · rw [analyzeCase_empty M p r (Or.inr hr)] at h
      exact absurd h (by simp)
    · rw [analyzeCase_of_ne M p r hp hr] at h
      injection h with h1 h2
      subst h1
      exact ⟨hp, hr, rfl, h2.symm⟩

/-- A successful press of the button appends exactly its record. -/
theorem analyzeStep_fst_of_ne (M : Models) (history : List CaseRecord)
    (p r : String) (hp : p ≠ "") (hr : r ≠ "") :
    (analyzeStep M history p r).1 = history ++ [caseRecordOf M p r] := by
  unfold analyzeStep
  rw [analyzeCase_of_ne M p r hp hr]

/-- Sessions over non-empty inputs accumulate one record per call, in call
order. -/
theorem runSessionFrom_eq (M : Models) (inputs : List (String × String))
    (h : ∀ pr ∈ inputs, pr.1 ≠ "" ∧ pr.2 ≠ "") (history : List CaseRecord) :
    runSessionFrom M history inputs =
      history ++ inputs.map fun pr => caseRecordOf M pr.1 pr.2 := by
  induction inputs generalizing history with
  | nil => simp [runSessionFrom]
  | cons pr rest ih =>
    obtain ⟨p, r⟩ := pr
    have hpr := h (p, r) (by simp)
    rw [runSessionFrom, analyzeStep_fst_of_ne M history p r hpr.1 hpr.2,
      ih (fun q hq => h q (List.mem_cons_of_mem _ hq))]
    simp

/-! ### The claims -/

/-- **C1.** `analyzeCase` fails with the validation error exactly when one
of the two inputs is empty; in that case nothing is appended to the history
and the outcome does not depend on the artifacts (no classifier is
invoked); for non-empty inputs it returns the case record whose fields are
exactly Petition, Claim, Response, Score, Status. -/
theorem C1_validation_iff (M : Models) (history : List CaseRecord)
    (p r : String) :
    ((∃ m, (analyzeStep M history p r).2 = .validationError m) ↔
      (p = "" ∨ r = "")) ∧
    ((p = "" ∨ r = "") →
      (analyzeStep M history p r).1 = history ∧
      ∀ M', analyzeStep M' history p r = analyzeStep M history p r) ∧
    (p ≠ "" → r ≠ "" →
      ∃ g, (analyzeStep M history p r).2 =
          .analyzed
            ⟨p, predict_claim_type M p, r, predict_score M r,
              predict_status M p (predict_claim_type M p) r
                (predict_score M r)⟩ g ∧
        (analyzeStep M history p r).1 =
          history ++
            [⟨p, predict_claim_type M p, r, predict_score M r,
              predict_status M p (predict_claim_type M p) r
                (predict_score M r)⟩]) := by
  by_cases he : p = "" ∨ r = ""
  · have hstep : ∀ N : Models, analyzeStep N history p r =
        (history, .validationError "Please enter both petition and response.") := by
      intro N
      unfold analyzeStep
      rw [analyzeCase_empty N p r he]
    refine ⟨⟨fun _ => he, fun _ => ?_⟩, fun _ => ⟨by rw [hstep], fun M' => by rw [hstep, hstep]⟩, fun hp hr => ?_⟩
    · rw [hstep]
      exact ⟨_, rfl⟩
    · rcases he with he | he
      · exact absurd he hp
      · exact absurd he hr
  · push_neg at he
    obtain ⟨hp, hr⟩ := he
    have hstep : analyzeStep M history p r =
        (history ++ [caseRecordOf M p r],
          .analyzed (caseRecordOf M p r)
            (if pyLower (caseRecordOf M p r).Status = "closed" then none
             else some (get_guidance p (caseRecordOf M p r).Claim r))) := by
      unfold analyzeStep
      rw [analyzeCase_of_ne M p r hp hr]
    refine ⟨⟨?_, fun h => ?_⟩, fun h => ?_, fun _ _ => ?_⟩
    · rintro ⟨m, hm⟩
      rw [hstep] at hm
      exact absurd hm (by simp)
    · rcases h with h | h
      · exact absurd h hp
      · exact absurd h hr
    · rcases h with h | h
      · exact absurd h hp
      · exact absurd h hr
    · rw [hstep]
      exact ⟨_, rfl, rfl⟩

/-- Witness for `C1_validation_iff` at concrete inputs: an empty petition
leaves the history unchanged for every artifact instance, and non-empty
inputs append the analyzed record. -/
theorem C1_validation_iff_witness :
    ((analyzeStep runningModels [] "" "r").1 = [] ∧
      ∀ M', analyzeStep M' [] "" "r" = analyzeStep runningModels [] "" "r") ∧
    (∃ g, (analyzeStep runningModels [] "p" "r").2 =
        .analyzed ⟨"p", "missing person", "r", 3, "running"⟩ g ∧
      (analyzeStep runningModels [] "p" "r").1 =
        [⟨"p", "missing person", "r", 3, "running"⟩]) := by
  refine ⟨(C1_validation_iff runningModels [] "" "r").2.1 (Or.inl rfl), ?_⟩
  exact (C1_validation_iff runningModels [] "p" "r").2.2
    (by decide) (by decide)

/-- **C2** counterexample: with a claim artifact that separates texts by
length, analyzing petition `"A b."` (4 characters raw, `"ab"` normalized)
classifies the raw text; classifying the normalized text gives a different
label.  The pipeline therefore does not operate on normalized text. -/
theorem C2_counterexample :
    analyzeCase lengthModels "A b." "resp" =
      .analyzed ⟨"A b.", "raw input", "resp", 4, "Closed"⟩ none ∧
    predict_claim_type lengthModels (preprocess_text "A b.") =
      "normalized input" ∧
    ("raw input" : String) ≠ "normalized input" :=
  ⟨by decide, by decide, by decide⟩

/-- **C2** amended: the analyze-case pipeline passes the raw petition to
the claim classifier, the raw response to the score predictor, and the raw
texts to the status classifier; `preprocess_text` is never applied. -/
theorem C2_amended_raw_inputs (M : Models) (p r : String) (rec : CaseRecord)
    (g : Option String) (h : analyzeCase M p r = .analyzed rec g) :
    rec.Claim = M.claimModel (M.claimVectorizer p) ∧
    rec.Score = M.scoreModel (M.scoreVectorizer r) ∧
    rec.Status = M.statusModel
      (M.statusVectorizer (p ++ " " ++ rec.Claim ++ " " ++ r) ++ [rec.Score]) := by
  obtain ⟨hp, hr, hrec, hg⟩ := analyzeCase_record M p r rec g h
  subst hrec
  exact ⟨rfl, rfl, rfl⟩

/-- Witness for `C2_amended_raw_inputs` at a concrete run. -/
theorem C2_amended_raw_inputs_witness :
    (⟨"A b.", "raw input", "resp", 4, "Closed"⟩ : CaseRecord).Claim =
      lengthModels.claimModel (lengthModels.claimVectorizer "A b.") :=
  (C2_amended_raw_inputs lengthModels "A b." "resp"
    ⟨"A b.", "raw input", "resp", 4, "Closed"⟩ none (by decide)).1

/-- **C3** fails on the code: `preprocess_text` is not idempotent.  On the
input `a\sb` one pass gives `a b` (the literal backslash-`s` run becomes a
space) and a second pass gives `ab` (that space is then deleted by the
character filter). -/
theorem C3_not_idempotent :
    preprocess_text "a\\sb" = "a b" ∧
    preprocess_text (preprocess_text "a\\sb") = "ab" ∧
    preprocess_text (preprocess_text "a\\sb") ≠ preprocess_text "a\\sb" :=
  ⟨by decide, by decide, by decide⟩

/-- **C4** counterexample: the normalizer maps the one-backslash string to
itself, so a character that is neither an ASCII letter nor a digit (nor an
introduced space) survives in the output, contrary to the claim. -/
theorem C4_counterexample :
    preprocess_text "\\" = "\\" ∧
    '\\' ∈ (preprocess_text "\\").data ∧
    (isLowerAscii '\\' || isUpperAscii '\\' || isDigitAscii '\\' ||
      ('\\' == ' ')) = false :=
  ⟨by decide, by decide, by decide⟩

/-- **C4** amended: the normalizer lowercases, removes every character that
is not an ASCII letter, digit or backslash (whitespace included, so words
merge), replaces every occurrence of a backslash followed by a maximal run
of letters `s` by a single space, and trims; every output character is an
ASCII lowercase letter, a digit, a backslash, or a space. -/
theorem C4_amended_normalize (s : String) :
    preprocess_text s = normalizeAmended s ∧
    ∀ c ∈ (preprocess_text s).data,
      (isLowerAscii c || isDigitAscii c || c == '\\' || c == ' ') = true := by
  constructor
  · unfold preprocess_text normalizeAmended
    rw [List.filter_congr fun a _ => regexKeep_eq_amendedKeep a,
      (subRun_eq_lookahead _).1]
  · exact preprocess_chars s

/-- Witness for `C4_amended_normalize` at a concrete input whose output
keeps a backslash. -/
theorem C4_amended_normalize_witness :
    preprocess_text "A b\\cd" = normalizeAmended "A b\\cd" ∧
    (isLowerAscii '\\' || isDigitAscii '\\' || ('\\' == '\\') ||
      ('\\' == ' ')) = true := by
  have h := C4_amended_normalize "A b\\cd"
  exact ⟨h.1, h.2 '\\' (by decide)⟩

/-- **C5.** The guidance resolver is total and returns exactly five ordered
steps for every claim label, chosen by first-match-wins substring
containment in the precedence order missing, fraud/cyber, land, domestic,
default; in particular the label `land fraud` yields the fraud/cyber list. -/
theorem C5_guidance_total_precedence (p r c : String) :
    (guidanceSteps (get_guidance p c r)).length = 5 ∧
    (strContains (pyLower c) "missing" = true →
      get_guidance p c r = missingGuidance) ∧
    (strContains (pyLower c) "missing" = false →
      (strContains (pyLower c) "fraud" = true ∨
        strContains (pyLower c) "cyber" = true) →
      get_guidance p c r = fraudGuidance) ∧
    (strContains (pyLower c) "missing" = false →
      strContains (pyLower c) "fraud" = false →
      strContains (pyLower c) "cyber" = false →
      strContains (pyLower c) "land" = true →
      get_guidance p c r = landGuidance) ∧
    (strContains (pyLower c) "missing" = false →
      strContains (pyLower c) "fraud" = false →
      strContains (pyLower c) "cyber" = false →
      strContains (pyLower c) "land" = false →
      strContains (pyLower c) "domestic" = true →
      get_guidance p c r = domesticGuidance) ∧
    (strContains (pyLower c) "missing" = false →
      strContains (pyLower c) "fraud" = false →
      strContains (pyLower c) "cyber" = false →
      strContains (pyLower c) "land" = false →
      strContains (pyLower c) "domestic" = false →
      get_guidance p c r = defaultGuidance) ∧
    get_guidance p "land fraud" r = fraudGuidance := by
  have hg : get_guidance p c r =
      (if strContains (pyLower c) "missing" then missingGuidance
       else if strContains (pyLower c) "fraud" ||
          strContains (pyLower c) "cyber" then fraudGuidance
       else if strContains (pyLower c) "land" then landGuidance
       else if strContains (pyLower c) "domestic" then domesticGuidance
       else defaultGuidance) := rfl
  have hlf : get_guidance p "land fraud" r = get_guidance "" "land fraud" "" := rfl
  refine ⟨?_, ?_, ?_, ?_, ?_, ?_, ?_⟩
  · rw [hg]
    split_ifs <;> decide
  · intro h1
    rw [hg, h1]
    rfl
  · intro h1 h2
    rcases h2 with h2 | h2 <;> rw [hg, h1] <;> simp [h2]
  · intro h1 h2 h3 h4
    rw [hg, h1]
    simp [h2, h3, h4]
  · intro h1 h2 h3 h4 h5
    rw [hg, h1]
    simp [h2, h3, h4, h5]
  · intro h1 h2 h3 h4 h5
    rw [hg, h1]
    simp [h2, h3, h4, h5]
  · rw [hlf]
    decide

/-- Witness for `C5_guidance_total_precedence` at the label `land fraud`. -/
theorem C5_guidance_total_precedence_witness :
    (guidanceSteps (get_guidance "pet" "land fraud" "resp")).length = 5 ∧
    get_guidance "pet" "land fraud" "resp" = fraudGuidance := by
  have h := C5_guidance_total_precedence "pet" "resp" "land fraud"
  exact ⟨h.1, h.2.2.1 (by decide) (Or.inl (by decide))⟩

/-- **C6.** The status classifier concatenates petition, claim and response
space-separated in that order, vectorizes the blob, appends the score as
one extra trailing feature, and returns the status model's prediction on
the augmented vector. -/
theorem C6_status_input_shape (M : Models) (p c r : String) (s : ℚ) :
    statusCombined p c r = p ++ " " ++ c ++ " " ++ r ∧
    (statusFinalInput M p c r s).dropLast =
      M.statusVectorizer (statusCombined p c r) ∧
    (statusFinalInput M p c r s).getLast? = some s ∧
    (statusFinalInput M p c r s).length =
      (M.statusVectorizer (statusCombined p c r)).length + 1 ∧
    predict_status M p c r s = M.statusModel (statusFinalInput M p c r s) := by
  refine ⟨rfl, ?_, ?_, ?_, rfl⟩
  · exact List.dropLast_concat ..
  · exact List.getLast?_concat ..
  · simp [statusFinalInput]

/-- **C7.** In a successful analysis the claim and score are the inputs
from which the status is computed, and guidance is produced exactly when
the lowercased status differs from `closed`; the rendered guidance is the
resolver's output for the record's claim. -/
theorem C7_status_guidance_order (M : Models) (p r : String)
    (rec : CaseRecord) (g : Option String)
    (h : analyzeCase M p r = .analyzed rec g) :
    rec.Claim = predict_claim_type M p ∧
    rec.Score = predict_score M r ∧
    rec.Status = predict_status M p rec.Claim r rec.Score ∧
    (g = none ↔ pyLower rec.Status = "closed") ∧
    ∀ t, g = some t → t = get_guidance p rec.Claim r := by
  obtain ⟨hp, hr, hrec, hg⟩ := analyzeCase_record M p r rec g h
  subst hrec
  subst hg
  refine ⟨rfl, rfl, rfl, ?_, ?_⟩
  · by_cases hc : pyLower (caseRecordOf M p r).Status = "closed" <;> simp [hc]
  · intro t ht
    by_cases hc : pyLower (caseRecordOf M p r).Status = "closed"
    · rw [if_pos hc] at ht
      cases ht
    · rw [if_neg hc] at ht
      injection ht with ht
      exact ht.symm

/-- Witness for `C7_status_guidance_order` at a concrete run that is not
closed. -/
theorem C7_status_guidance_order_witness :
    (⟨"p", "missing person", "r", 3, "running"⟩ : CaseRecord).Claim =
      predict_claim_type runningModels "p" ∧
    ((some missingGuidance : Option String) = none ↔
      pyLower (⟨"p", "missing person", "r", 3, "running"⟩ : CaseRecord).Status =
        "closed") := by
  have h := C7_status_guidance_order runningModels "p" "r"
    ⟨"p", "missing person", "r", 3, "running"⟩ (some missingGuidance) (by decide)
  exact ⟨h.1, h.2.2.2.1⟩

/-- **C8.** Under the spec's closed status label set, after `N` successful
analyses the session history holds exactly the `N` records in call order,
each step appends at most its one record, and filtering on status `closed`
and status `running` partitions the history completely. -/
theorem C8_history_partition (M : Models) (inputs : List (String × String))
    (hne : ∀ pr ∈ inputs, pr.1 ≠ "" ∧ pr.2 ≠ "")
    (hlab : ∀ v, M.statusModel v = "closed" ∨ M.statusModel v = "running") :
    runSession M inputs = (inputs.map fun pr => caseRecordOf M pr.1 pr.2) ∧
    (runSession M inputs).length = inputs.length ∧
    (∀ history p r, (analyzeStep M history p r).1 = history ∨
      (analyzeStep M history p r).1 = history ++ [caseRecordOf M p r]) ∧
    (∀ rec ∈ runSession M inputs,
      (rec.Status = "closed" ∧ rec.Status ≠ "running") ∨
      (rec.Status = "running" ∧ rec.Status ≠ "closed")) ∧
    ((runSession M inputs).filter fun rec => rec.Status == "closed").length +
        ((runSession M inputs).filter fun rec => rec.Status == "running").length =
      (runSession M inputs).length := by
  have hrun : runSession M inputs =
      inputs.map fun pr => caseRecordOf M pr.1 pr.2 := by
    unfold runSession
    rw [runSessionFrom_eq M inputs hne]
    simp
  have hstatus : ∀ rec ∈ runSession M inputs,
      rec.Status = "closed" ∨ rec.Status = "running" := by
    rw [hrun]
    intro rec hrec
    rw [List.mem_map] at hrec
    obtain ⟨pr, -, rfl⟩ := hrec
    exact hlab _
  have hfilter : ∀ l : List CaseRecord,
      (∀ rec ∈ l, rec.Status = "closed" ∨ rec.Status = "running") →
      (l.filter fun rec => rec.Status == "closed").length +
          (l.filter fun rec => rec.Status == "running").length = l.length := by
    intro l
    induction l with
    | nil => intro; simp
    | cons a t ih =>
      intro hmem
      have ha := hmem a (by simp)
      have ht := ih fun rec hrec => hmem rec (List.mem_cons_of_mem _ hrec)
      rcases ha with h | h
      · have h1 : (a.Status == "closed") = true := by simp [h]
        have h2 : (a.Status == "running") = false := by simp [h]
        simp only [List.filter_cons, h1, h2, if_true, if_false,
          Bool.false_eq_true, List.length_cons]
        omega
      · have h1 : (a.Status == "closed") = false := by simp [h]
        have h2 : (a.Status == "running") = true := by simp [h]
        simp only [List.filter_cons, h1, h2, if_true, if_false,
          Bool.false_eq_true, List.length_cons]
        omega
  refine ⟨hrun, ?_, ?_, ?_, hfilter _ hstatus⟩
  · rw [hrun]
    simp
  · intro history p r
    by_cases he : p = "" ∨ r = ""
    · left
      unfold analyzeStep
      rw [analyzeCase_empty M p r he]
    · push_neg at he
      right
      exact analyzeStep_fst_of_ne M history p r he.1 he.2
  · intro rec hrec
    rcases hstatus rec hrec with h | h
    · refine Or.inl ⟨h, ?_⟩
      rw [h]
      decide
    · refine Or.inr ⟨h, ?_⟩
      rw [h]
      decide

/-- Witness for `C8_history_partition` on a two-call session with an
artifact whose status model always answers `running`. -/
theorem C8_history_partition_witness :
    runSession runningModels [("a", "b"), ("c", "d")] =
      [caseRecordOf runningModels "a" "b", caseRecordOf runningModels "c" "d"] ∧
    (runSession runningModels [("a", "b"), ("c", "d")]).length = 2 := by
  have h := C8_history_partition runningModels [("a", "b"), ("c", "d")]
    (by decide) (fun v => Or.inr rfl)
  exact ⟨h.1, h.2.1⟩

/-- **C9.** The guidance resolver ignores its petition and response
arguments: the result depends only on the claim label. -/
theorem C9_guidance_depends_only_on_claim (p₁ r₁ p₂ r₂ c : String) :
    get_guidance p₁ c r₁ = get_guidance p₂ c r₂ := rfl

/-- **C10.** Normalized output contains no ASCII uppercase letter and
neither starts nor ends with whitespace. -/
theorem C10_lower_and_stripped (s : String) :
    (∀ c ∈ (preprocess_text s).data, isUpperAscii c = false) ∧
    (∀ c, (preprocess_text s).data.head? = some c → isPySpace c = false) ∧
    (∀ c, (preprocess_text s).data.getLast? = some c → isPySpace c = false) := by
  refine ⟨?_, ?_, ?_⟩
  · intro c hc
    have h := preprocess_chars s c hc
    simp only [Bool.or_eq_true, beq_iff_eq] at h
    rcases h with ((h | h) | rfl) | rfl
    · simp only [isLowerAscii, decide_eq_true_eq] at h
      simp only [isUpperAscii, decide_eq_false_iff_not]
      omega
    · simp only [isDigitAscii, decide_eq_true_eq] at h
      simp only [isUpperAscii, decide_eq_false_iff_not]
      omega
    · decide
    · decide
  · intro c hc
    exact pyStrip_head _ c hc
  · intro c hc
    exact pyStrip_getLast _ c hc

/-- Witness for `C10_lower_and_stripped` at a concrete input with an
uppercase letter and interior whitespace. -/
theorem C10_lower_and_stripped_witness :
    isUpperAscii 'a' = false ∧ isPySpace 'a' = false ∧ isPySpace 'c' = false := by
  have h := C10_lower_and_stripped "Ab C"
  exact ⟨h.1 'a' (by decide), h.2.1 'a' (by decide), h.2.2 'c' (by decide)⟩

end PetitionApp
